import Mathlib

/-!
Verification of the request-execution pipeline of the cisco-meraki-mcp server.

The TypeScript source is shallowly embedded: JSON payloads become the `Value`
inductive; JS strings appearing as payload data become `List Char` so that
`substring`/`length` have exact counterparts; optional/undefined fields become
`Option`; thrown exceptions become `Except`.  Each definition mirrors one
function of the source (file and function named in its doc comment).
-/

/-- JSON-like runtime value, mirroring the `any` payloads the server passes
around.  Objects are association lists in property order (JS objects preserve
insertion order for string keys); strings are `List Char` so that
`substring(0, n)` is `List.take n`. -/
inductive Value where
  | vnull : Value
  | vbool : Bool → Value
  | vnum : Int → Value
  | vstr : List Char → Value
  | varr : List Value → Value
  | vobj : List (String × Value) → Value

/-- JS object-key lookup in an association table (keys unique, as in any
parsed JSON object). -/
def lookupEntry {α : Type} : List (String × α) → String → Option α
  | [], _ => none
  | e :: rest, k => if e.1 == k then some e.2 else lookupEntry rest k

namespace Value

/-- JS truthiness of a value (`undefined`/`null`, `false`, `0`, `""` are falsy;
arrays and objects are always truthy). -/
def truthy : Value → Bool
  | vnull => false
  | vbool b => b
  | vnum n => n != 0
  | vstr s => !s.isEmpty
  | varr _ => true
  | vobj _ => true

/-- `value === null || value === undefined` (the embedding collapses JS `null`
and `undefined` into `vnull`). -/
def isNullish : Value → Bool
  | vnull => true
  | _ => false

/-- Property read `v[key]`: defined on objects, `undefined` (`none`) elsewhere. -/
def getKey : Value → String → Option Value
  | vobj fs, k => lookupEntry fs k
  | _, _ => none

/-- `typeof v === 'object'` restricted to truthy values: arrays and non-null
objects (JS `typeof null` is `'object'` but `null` is falsy, so the combined
guard `data && typeof data === 'object'` selects exactly these). -/
def isObjectTruthy : Value → Bool
  | varr _ => true
  | vobj _ => true
  | _ => false

end Value

open Value

/-! ## src/utils/response-optimizer.ts -/

/-- `OptimizationOptions` (response-optimizer.ts).  The two maxima are
`Option Nat`: an absent field makes every JS comparison `length > undefined`
false.  The boolean flags are JS-truthy booleans. -/
structure OptimizationOptions where
  maxArrayLength : Option Nat
  truncateLongStrings : Bool
  maxStringLength : Option Nat
  removeNullFields : Bool
  compactFormat : Bool
deriving DecidableEq, Repr

/-- `DEFAULT_OPTIONS` (response-optimizer.ts). -/
def DEFAULT_OPTIONS : OptimizationOptions :=
  { maxArrayLength := some 100
    truncateLongStrings := true
    maxStringLength := some 500
    removeNullFields := true
    compactFormat := true }

/-- JS `n > m?` where the bound may be `undefined` (any comparison with
`undefined` is false). -/
def gtOpt (n : Nat) : Option Nat → Bool
  | some m => n > m
  | none => false

/-- JS `xs.slice(0, m?)`: with an `undefined` bound the whole array. -/
def jsSlice {α : Type} (xs : List α) : Option Nat → List α
  | some m => xs.take m
  | none => xs

/-- The literal `'... [truncated]'` appended by string truncation. -/
def truncMarker : List Char := "... [truncated]".toList

theorem sizeOf_take_le {α : Type} [SizeOf α] :
    ∀ (n : Nat) (xs : List α), sizeOf (xs.take n) ≤ sizeOf xs := by
  intro n xs
  induction xs generalizing n with
  | nil => simp
  | cons a l ih =>
    cases n with
    | zero => simp; omega
    | succ m =>
      have := ih m
      simp only [List.take_succ_cons, List.cons.sizeOf_spec]
      omega

theorem sizeOf_jsSlice_le {α : Type} [SizeOf α] (xs : List α) (o : Option Nat) :
    sizeOf (jsSlice xs o) ≤ sizeOf xs := by
  cases o with
  | none => simp [jsSlice]
  | some m => simpa [jsSlice] using sizeOf_take_le m xs

mutual
/-- `optimizeResponse(data, options)` (response-optimizer.ts lines 21-68):
arrays are sliced to `maxArrayLength` and wrapped with `_meta` when longer;
objects drop nullish fields under `removeNullFields` and recurse; long strings
are truncated with a marker; other primitives pass through. -/
def optimizeResponse (opts : OptimizationOptions) : Value → Value
  | .vnull => .vnull
  | .vbool b => .vbool b
  | .vnum n => .vnum n
  | .vstr s =>
      match opts.maxStringLength with
      | some m =>
          if opts.truncateLongStrings && decide (s.length > m) then
            .vstr (s.take m ++ truncMarker)
          else .vstr s
      | none => .vstr s
  | .varr xs =>
      let optimized := optimizeList opts (jsSlice xs opts.maxArrayLength)
      if gtOpt xs.length opts.maxArrayLength then
        .vobj [("data", .varr optimized),
               ("_meta", .vobj [("totalCount", .vnum xs.length),
                                ("returnedCount", .vnum optimized.length),
                                ("truncated", .vbool true)])]
      else .varr optimized
  | .vobj fs => .vobj (optimizeFields opts fs)
termination_by v => sizeOf v
decreasing_by
  all_goals simp_wf
  all_goals first
    | omega
    | (rename_i ys
       have h := sizeOf_jsSlice_le ys opts.maxArrayLength
       simp at h ⊢
       omega)

/-- Element-wise recursion of `optimizeResponse` over an array (the `.map`
on line 28 of response-optimizer.ts). -/
def optimizeList (opts : OptimizationOptions) : List Value → List Value
  | [] => []
  | x :: xs => optimizeResponse opts x :: optimizeList opts xs
termination_by l => sizeOf l
decreasing_by all_goals (simp_wf; try omega)

/-- The `Object.entries` loop of `optimizeResponse` (lines 49-57): nullish
values are skipped when `removeNullFields`, others recursed. -/
def optimizeFields (opts : OptimizationOptions) :
    List (String × Value) → List (String × Value)
  | [] => []
  | (k, v) :: fs =>
      if opts.removeNullFields && v.isNullish then optimizeFields opts fs
      else (k, optimizeResponse opts v) :: optimizeFields opts fs
termination_by fs => sizeOf fs
decreasing_by all_goals (simp_wf; try omega)
end

mutual
/-- Structural equality test on values (used to model JS `Set` membership on
primitive values in `createSummaryResponse`). -/
def Value.beq : Value → Value → Bool
  | .vnull, .vnull => true
  | .vbool a, .vbool b => a == b
  | .vnum a, .vnum b => a == b
  | .vstr a, .vstr b => a == b
  | .varr a, .varr b => Value.beqList a b
  | .vobj a, .vobj b => Value.beqFields a b
  | _, _ => false
termination_by v => sizeOf v
decreasing_by all_goals (simp_wf; try omega)

def Value.beqList : List Value → List Value → Bool
  | [], [] => true
  | x :: xs, y :: ys => Value.beq x y && Value.beqList xs ys
  | _, _ => false
termination_by l => sizeOf l
decreasing_by all_goals (simp_wf; try omega)

def Value.beqFields : List (String × Value) → List (String × Value) → Bool
  | [], [] => true
  | (k, v) :: fs, (k', v') :: fs' => k == k' && Value.beq v v' && Value.beqFields fs fs'
  | _, _ => false
termination_by fs => sizeOf fs
decreasing_by all_goals (simp_wf; try omega)
end

instance : BEq Value := ⟨Value.beq⟩

mutual
/-- Compact `JSON.stringify` over the value model (string escaping is not
modelled; it only serialises, never parses). -/
def Value.stringify : Value → String
  | .vnull => "null"
  | .vbool true => "true"
  | .vbool false => "false"
  | .vnum n => toString n
  | .vstr s => "\"" ++ String.mk s ++ "\""
  | .varr xs => "[" ++ Value.stringifyList xs ++ "]"
  | .vobj fs => "\x7b" ++ Value.stringifyFields fs ++ "\x7d"
termination_by v => sizeOf v
decreasing_by all_goals (simp_wf; try omega)

def Value.stringifyList : List Value → String
  | [] => ""
  | [x] => Value.stringify x
  | x :: xs => Value.stringify x ++ "," ++ Value.stringifyList xs
termination_by l => sizeOf l
decreasing_by all_goals (simp_wf; try omega)

def Value.stringifyFields : List (String × Value) → String
  | [] => ""
  | [(k, v)] => "\"" ++ k ++ "\":" ++ Value.stringify v
  | (k, v) :: fs => "\"" ++ k ++ "\":" ++ Value.stringify v ++ "," ++ Value.stringifyFields fs
termination_by fs => sizeOf fs
decreasing_by all_goals (simp_wf; try omega)
end

/-- JS property assignment / spread-overwrite `obj[k] = v`: an existing key
keeps its position and gets the new value, a new key is appended. -/
def setKey (obj : List (String × Value)) (k : String) (v : Value) :
    List (String × Value) :=
  if obj.any (fun p => p.1 == k) then obj.map (fun p => if p.1 == k then (k, v) else p)
  else obj ++ [(k, v)]

/-- The per-field summary loop of `createSummaryResponse`
(response-optimizer.ts lines 88-96): for each requested field, collect the
defined values, and report the deduplicated count and first 5 distinct samples
(JS `Set` insertion order = first occurrences).  JS `Set` compares objects by
reference; the model compares structurally, which coincides on the primitive
field values the callers summarise. -/
def mkFieldSummaries (sf : List String) (xs : List Value) :
    List (String × Value) :=
  sf.filterMap (fun field =>
    let values := xs.filterMap (fun item => item.getKey field)
    if values.length > 0 then
      let uniq := values.eraseDups
      some (field, Value.vobj [("uniqueCount", .vnum uniq.length),
                               ("samples", .varr (uniq.take 5))])
    else none)

/-- `createSummaryResponse(data, summaryFields)` (response-optimizer.ts lines
73-103): non-arrays and empty arrays pass through; arrays of more than 50
items are replaced by `{totalCount, firstItems, summary}`. -/
def createSummaryResponse (data : Value) (summaryFields : Option (List String)) :
    Value :=
  match data with
  | .varr xs =>
      if xs.length == 0 then .varr xs
      else if xs.length > 50 then
        let summ : List (String × Value) :=
          match summaryFields, xs.head? with
          | some sf, some h => if h.isObjectTruthy then mkFieldSummaries sf xs else []
          | _, _ => []
        .vobj [("totalCount", .vnum xs.length),
               ("firstItems", .varr (xs.take 5)),
               ("summary", .vobj summ)]
      else .varr xs
  | _ => data

/-- `formatToolResponse(data, toolName)` (response-optimizer.ts lines
108-159): payloads already carrying a `meta`/`_meta`/`_summary` annotation are
stringified unchanged; large arrays are summarised per tool; the
`network_events_list` nested-events shape is summarised in place; everything
else goes through `optimizeResponse` with the inline option set. -/
def formatToolResponse (data : Value) (toolName : String) : String :=
  if data.isObjectTruthy &&
      ((data.getKey "meta").any truthy || (data.getKey "_meta").any truthy ||
        (data.getKey "_summary").any truthy) then
    data.stringify
  else
    let bigArray := match data with | .varr xs => decide (xs.length > 30) | _ => false
    let optimized :=
      if bigArray then
        if toolName == "network_clients_list" then
          createSummaryResponse data (some ["description", "mac", "ip", "vlan", "status", "usage"])
        else if toolName == "organization_devices_list" ||
            toolName == "organization_devices_statuses" then
          createSummaryResponse data (some ["name", "model", "serial", "status", "networkId"])
        else if toolName == "organization_devices_availabilities" then
          createSummaryResponse data (some ["serial", "status", "lastReportedAt"])
        else if toolName == "network_devices_list" then
          createSummaryResponse data (some ["name", "model", "serial", "status"])
        else createSummaryResponse data none
      else if toolName == "network_events_list" &&
          (match data.getKey "events" with
            | some (.varr es) => decide (es.length > 30)
            | _ => false) then
        match data, data.getKey "events" with
        | .vobj fs, some ev =>
            .vobj (setKey fs "events"
              (createSummaryResponse ev (some ["type", "category", "occurredAt", "description"])))
        | _, _ => data
      else
        optimizeResponse ⟨some 100, true, some 500, true, true⟩ data
    optimized.stringify

/-! ## src/utils/settings.ts -/

/-- The `.*` step of the glob matcher: try the continuation on every suffix
of the string. -/
def globStarAux (f : List Char → Bool) : List Char → Bool
  | [] => f []
  | c :: t => f (c :: t) || globStarAux f t

/-- The glob matcher `matchesPattern` (settings.ts lines 216-226), expressed
directly on characters: the source converts `*` to `.*` and `?` to `.` and
tests the anchored regex; for patterns built from literal characters plus `*`
and `?` (all patterns occurring in this code base) that regex is exactly this
glob match. -/
def globMatch : List Char → List Char → Bool
  | [], s => s.isEmpty
  | '*' :: ps, s => globStarAux (globMatch ps) s
  | '?' :: ps, s =>
      (match s with
        | [] => false
        | _ :: t => globMatch ps t)
  | c :: ps, s =>
      (match s with
        | [] => false
        | d :: t => c == d && globMatch ps t)

/-- `SettingsManager.matchesPattern(toolName, pattern)`. -/
def matchesPattern (toolName pattern : String) : Bool :=
  globMatch pattern.toList toolName.toList

/-- JS `s.includes(sub)` on character lists (`sub` first). -/
def charsContain (sub : List Char) : List Char → Bool
  | [] => sub.isEmpty
  | c :: t => sub.isPrefixOf (c :: t) || charsContain sub t

/-- The two naming-convention tables of `SettingsManager.isReadOnlyTool`
(settings.ts lines 232-233). -/
def readOnlyPrefixes : List String := ["get", "list", "show", "view", "read", "fetch"]

def readOnlySuffixes : List String :=
  ["_get", "_list", "_show", "_view", "_read", "_fetch", "_status", "_statuses"]

/-- `SettingsManager.isReadOnlyTool` (settings.ts lines 231-260): lower-case
the name, then test the read-verb prefixes, the read-oriented suffixes, and
the four interior patterns.  The source's sequence of early-return `if`s is
this disjunction. -/
def isReadOnlyTool (toolName : String) : Bool :=
  let lower := toolName.toList.map Char.toLower
  readOnlyPrefixes.any (fun p => p.toList.isPrefixOf lower) ||
  readOnlySuffixes.any (fun p => p.toList.isSuffixOf lower) ||
  charsContain "_get_".toList lower ||
  charsContain "_list_".toList lower ||
  charsContain "_statuses".toList lower ||
  charsContain "_overview".toList lower

/-- `AutoApproveSettings.tools` (settings.ts lines 9-14); every field is
optional in the interface. -/
structure AutoApproveTools where
  all : Option Bool
  patterns : Option (List String)
  specific : Option (List String)
  exclude : Option (List String)

/-- `AutoApproveSettings` (settings.ts lines 7-16). -/
structure AutoApproveSettings where
  enabled : Bool
  tools : AutoApproveTools
  readOnlyByDefault : Option Bool

/-- `ResponseLimits` (settings.ts lines 18-24). -/
structure ResponseLimits where
  maxArrayLength : Nat
  maxResponseSize : Nat
  summarizeArrays : Bool
  truncateLongStrings : Option Bool
  maxStringLength : Option Nat

/-- `MerakiMCPSettings` (settings.ts lines 26-42), restricted to the fields
the execution pipeline reads (`rateLimit` and `logging` only feed console
logging and the dispatcher's external configuration). -/
structure MerakiMCPSettings where
  autoApprove : Option AutoApproveSettings
  responseLimits : Option ResponseLimits
  defaultParams : Option (List (String × List (String × Value)))

/-- `SettingsManager.shouldAutoApprove` (settings.ts lines 164-211): master
enable flag, then exclude list, blanket flag, exact names, glob patterns,
read-only heuristic, in that order; JS optional-chaining on the absent lists
makes each absent list a non-match. -/
def shouldAutoApprove (s : MerakiMCPSettings) (toolName : String) : Bool :=
  match s.autoApprove with
  | none => false
  | some aa =>
      if !aa.enabled then false
      else if (aa.tools.exclude.getD []).contains toolName then false
      else if aa.tools.all.getD false then true
      else if (aa.tools.specific.getD []).contains toolName then true
      else if (aa.tools.patterns.getD []).any (fun p => matchesPattern toolName p) then true
      else if aa.readOnlyByDefault.getD false && isReadOnlyTool toolName then true
      else false

/-- `Object.assign(target, source)` on plain objects: source keys applied in
order, overwriting in place or appending. -/
def objAssign (t s : List (String × Value)) : List (String × Value) :=
  s.foldl (fun acc p => setKey acc p.1 p.2) t

/-- `SettingsManager.getDefaultParams` (settings.ts lines 302-322): fold the
pattern-keyed entries of `defaultParams` in declaration order through
`Object.assign`, then apply the exact-name entry last. -/
def getDefaultParams (s : MerakiMCPSettings) (toolName : String) :
    List (String × Value) :=
  match s.defaultParams with
  | none => []
  | some table =>
      let defaults := table.foldl
        (fun acc e => if matchesPattern toolName e.1 then objAssign acc e.2 else acc) []
      match lookupEntry table toolName with
      | some ps => objAssign defaults ps
      | none => defaults


/-! ## src/utils/error-handler.ts -/

/-- The MCP error codes used by `toMcpError` / `handleError`. -/
inductive ErrorCode where
  | invalidParams
  | invalidRequest
  | methodNotFound
  | internalError
deriving DecidableEq, Repr

/-- An `McpError` as produced by `handleError`: code, message and the
structured `data` payload. -/
structure McpErr where
  code : ErrorCode
  message : String
  data : Value

/-- The exception values thrown inside the pipeline: `McpError`,
`MerakiAPIError`, `ValidationError` and plain `Error`, in the order
`handleError` tests them. -/
inductive Thrown where
  | mcp (e : McpErr)
  | api (message : String) (statusCode : Nat) (details : Value)
  | validation (field : String) (message : String) (value : Value)
  | plain (message : String)

/-- The status-code switch of `MerakiAPIError.toMcpError`
(error-handler.ts lines 25-54). -/
def apiStatusToCode (status : Nat) : ErrorCode :=
  if status = 400 then .invalidParams
  else if status = 401 || status = 403 then .invalidRequest
  else if status = 404 then .methodNotFound
  else .internalError

/-- The message built by the `ValidationError` constructor
(error-handler.ts line 65). -/
def validationMessage (field msg : String) : String :=
  "Validation error for field '" ++ field ++ "': " ++ msg

/-- `handleError` (error-handler.ts lines 89-115): rethrow `McpError`,
convert `MerakiAPIError` and `ValidationError` via their `toMcpError`, wrap a
plain `Error` as an internal `McpError`. -/
def handleError : Thrown → McpErr
  | .mcp e => e
  | .api m st d =>
      ⟨apiStatusToCode st, m, .vobj [("statusCode", .vnum st), ("details", d)]⟩
  | .validation f m v =>
      ⟨.invalidParams, validationMessage f m,
        .vobj [("field", .vstr f.toList), ("value", v)]⟩
  | .plain m => ⟨.internalError, m, .vobj [("originalError", .vstr "Error".toList)]⟩

/-- `validateRequired` (error-handler.ts lines 120-133): the first required
field that is absent or nullish yields a `ValidationError` (whose `value` is
`undefined`). -/
def validateRequired (params : List (String × Value)) (required : List String) :
    Option Thrown :=
  (required.find? (fun f =>
      match lookupEntry params f with
      | none => true
      | some v => v.isNullish)).map
    (fun f => Thrown.validation f "This field is required" .vnull)

/-! ## src/utils/http-client.ts -/

def RATE_LIMIT_PER_SECOND : Nat := 5
def MAX_RETRIES : Nat := 3
def INITIAL_BACKOFF_MS : Nat := 1000

/-- One upstream HTTP response: status, the parsed numeric `retry-after`
header when present (the source applies `parseInt`; a header that does not
parse counts as absent), and the JSON body. -/
structure UpstreamResponse where
  status : Nat
  retryAfterSeconds : Option Nat
  data : Value

/-- `MerakiHttpClient.getRetryAfter` (lines 512-525): the header value in
seconds scaled to milliseconds, else the fixed `INITIAL_BACKOFF_MS`. -/
def getRetryAfter (r : UpstreamResponse) : Nat :=
  match r.retryAfterSeconds with
  | some s => s * 1000
  | none => INITIAL_BACKOFF_MS

/-- Rendering of a JS value by `String(...)` / template interpolation
(only primitives occur at the call sites). -/
def jsString : Value → String
  | .vstr s => String.mk s
  | .vnum n => toString n
  | .vbool true => "true"
  | .vbool false => "false"
  | .vnull => "null"
  | .varr _ => ""
  | .vobj _ => "[object Object]"

/-- The default status-code messages of `getErrorMessage` (lines 544-553). -/
def statusMessage (st : Nat) : Option String :=
  if st = 400 then some "Bad Request"
  else if st = 401 then some "Unauthorized - Invalid API key"
  else if st = 403 then some "Forbidden - Insufficient permissions"
  else if st = 404 then some "Not Found"
  else if st = 429 then some "Too Many Requests"
  else if st = 500 then some "Internal Server Error"
  else if st = 502 then some "Bad Gateway"
  else if st = 503 then some "Service Unavailable"
  else none

/-- `MerakiHttpClient.getErrorMessage` (lines 530-556): joined `errors`
array, else the `error` field, else a string body, else the default message
for the status. -/
def getErrorMessage (r : UpstreamResponse) : String :=
  match r.data.getKey "errors" with
  | some (.varr es) =>
      if es.length > 0 then String.intercalate ", " (es.map jsString)
      else getErrorMessageFallback r
  | _ => getErrorMessageFallback r
where
  getErrorMessageFallback (r : UpstreamResponse) : String :=
    match r.data.getKey "error" with
    | some v =>
        if v.truthy then jsString v
        else getErrorMessageDefault r
    | none => getErrorMessageDefault r
  getErrorMessageDefault (r : UpstreamResponse) : String :=
    match r.data with
    | .vstr s => String.mk s
    | _ => (statusMessage r.status).getD ("HTTP " ++ toString r.status ++ " Error")

/-- A `MerakiAPIError` as thrown by the dispatcher. -/
structure MerakiErr where
  message : String
  statusCode : Nat
  details : Value

/-- One `this.client.request(config)` call as `executeRequest` observes it:
the response interceptor (constructor lines 346-356) routes every status
≥ 400 except 429 through `handleErrorResponse` (lines 477-488), which throws
a `MerakiAPIError`; 429 and all other statuses are returned unchanged.  The
`script` maps the attempt index (= `retryCount`) to the upstream response. -/
def requestOnce (script : Nat → UpstreamResponse) (i : Nat) :
    Except MerakiErr UpstreamResponse :=
  let r := script i
  if r.status ≥ 400 && r.status != 429 then
    .error ⟨getErrorMessage r, r.status, r.data⟩
  else .ok r

/-- Observable outcome of `executeRequest`: the backoff waits (ms) in order,
the number of HTTP requests issued, and the final result. -/
structure DispatchOutcome where
  waits : List Nat
  attempts : Nat
  result : Except MerakiErr Value

/-- `MerakiHttpClient.executeRequest` (lines 422-472): a 429 response with
`retryCount < MAX_RETRIES` waits `getRetryAfter` and recurses with
`retryCount + 1`; a 2xx response succeeds; anything else (including a 429
after retries are exhausted) throws a `MerakiAPIError` carrying the status
and body. -/
def executeRequest (script : Nat → UpstreamResponse) (retryCount : Nat) :
    DispatchOutcome :=
  match requestOnce script retryCount with
  | .error e => ⟨[], 1, .error e⟩
  | .ok r =>
      if h : r.status = 429 ∧ retryCount < MAX_RETRIES then
        let rest := executeRequest script (retryCount + 1)
        ⟨getRetryAfter r :: rest.waits, 1 + rest.attempts, rest.result⟩
      else if 200 ≤ r.status ∧ r.status < 300 then
        ⟨[], 1, .ok r.data⟩
      else
        ⟨[], 1, .error ⟨getErrorMessage r, r.status, r.data⟩⟩
termination_by MAX_RETRIES - retryCount
decreasing_by
  simp_wf
  omega

/-! ## src/tools/base-tool.ts -/

/-- `HttpMethod` (base-tool.ts line 9). -/
inductive HttpMethod where
  | GET
  | POST
  | PUT
  | DELETE
  | COMPOSITE
deriving DecidableEq, Repr

/-- The string interpolation of an `HttpMethod` into an error message. -/
def HttpMethod.render : HttpMethod → String
  | .GET => "GET"
  | .POST => "POST"
  | .PUT => "PUT"
  | .DELETE => "DELETE"
  | .COMPOSITE => "COMPOSITE"

/-- An outbound HTTP request handed to the dispatcher (`this.httpClient.get`
and friends); `payload` is the query/body parameter object. -/
structure HttpRequest where
  method : HttpMethod
  url : String
  payload : List (String × Value)

/-- The view of a Zod field schema that `coerceParameterTypes` inspects: the
`typeName` after unwrapping `ZodOptional`/`ZodDefault`, plus the `coerce`
flag for numbers. -/
inductive FieldKind where
  | fnum (coerce : Bool)
  | fbool
  | farr
  | fstr
  | fother
deriving DecidableEq, Repr

/-- The input schema of a tool: the shape used for manual type coercion, and
the `safeParseAsync` validation function (Zod itself is an external library;
a failure carries the issue list, a success the parsed data). -/
structure ToolSchema where
  shape : List (String × FieldKind)
  parse : List (String × Value) → Except (List (List String × String)) (List (String × Value))

/-- `ToolConfig` (base-tool.ts lines 11-21).  A string endpoint is the
constant function; `customExecutor` returns the requests it issued together
with its result. -/
structure ToolConfig where
  name : String
  method : HttpMethod
  endpoint : Option (List (String × Value) → String)
  inputSchema : ToolSchema
  requiredParams : List String
  transformParams : Option (List (String × Value) → List (String × Value))
  transformResponse : Option (Value → Value)
  customExecutor : Option (List (String × Value) → List HttpRequest × Except Thrown Value)

/-- JS `Number(string)` on the strings the coercion step sees: an optional
sign followed by digits (an empty string is JS `0`; anything else is `NaN`,
i.e. `none`). -/
def parseJsNumber (s : List Char) : Option Int :=
  if s.isEmpty then some 0
  else
    match s with
    | '-' :: rest =>
        if !rest.isEmpty && rest.all Char.isDigit then
          some (-(Int.ofNat (String.toNat! (String.mk rest))))
        else none
    | _ =>
        if s.all Char.isDigit then some (Int.ofNat (String.toNat! (String.mk s)))
        else none

/-- JS `s.trim()` (only space characters are modelled). -/
def trimChars (s : List Char) : List Char :=
  ((s.dropWhile (· == ' ')).reverse.dropWhile (· == ' ')).reverse

/-- `value.split(",").map(v => v.trim()).filter(v => v)` from the array
coercion branch. -/
def splitCommaTrim (s : List Char) : List Value :=
  ((s.splitOn ',').map trimChars).filter (fun t => !t.isEmpty) |>.map Value.vstr

/-- The per-field body of `BaseTool.coerceParameterTypes` (base-tool.ts lines
247-298): nullish values are left alone; a string is converted to a number
(unless the schema already coerces), to a boolean on the literals
`"true"`/`"false"`, or split into an array, according to the field's schema. -/
def coerceOne (shape : List (String × FieldKind)) (k : String) (v : Value) : Value :=
  if v.isNullish then v
  else
    match lookupEntry shape k with
    | none => v
    | some kind =>
        match kind, v with
        | .fnum c, .vstr s =>
            if c then .vstr s
            else
              match parseJsNumber s with
              | some n => .vnum n
              | none => .vstr s
        | .fbool, .vstr s =>
            if s = "true".toList then .vbool true
            else if s = "false".toList then .vbool false
            else .vstr s
        | .farr, .vstr s => .varr (splitCommaTrim s)
        | _, _ => v

/-- `BaseTool.coerceParameterTypes`: the loop over `Object.entries(result)`
rewriting each value in place. -/
def coerceParameterTypes (shape : List (String × FieldKind))
    (params : List (String × Value)) : List (String × Value) :=
  params.map (fun p => (p.1, coerceOne shape p.1 p.2))

/-- The message `validateParams` builds from a Zod failure (base-tool.ts
lines 145-151). -/
def mkZodMessage (issues : List (List String × String)) : String :=
  match issues.head? with
  | some (path, msg) => "Validation error: " ++ String.intercalate "." path ++ ": " ++ msg
  | none => "Validation error: Invalid input"

/-- `BaseTool.validateParams` (base-tool.ts lines 140-160): Zod validation
first (a failure throws a plain `Error` with the first issue's path and
message), then `validateRequired` over the parsed data. -/
def validateParams (config : ToolConfig) (params : List (String × Value)) :
    Except Thrown (List (String × Value)) :=
  match config.inputSchema.parse params with
  | .error issues => .error (.plain (mkZodMessage issues))
  | .ok data =>
      match validateRequired data config.requiredParams with
      | some t => .error t
      | none => .ok data

def lbrace : Char := Char.ofNat 123
def rbrace : Char := Char.ofNat 125

theorem length_dropWhile_le {α : Type} (p : α → Bool) (l : List α) :
    (l.dropWhile p).length ≤ l.length := by
  induction l with
  | nil => simp
  | cons a t ih =>
    rw [List.dropWhile_cons]
    split
    · exact le_trans ih (by simp)
    · simp

/-- The path-parameter names matched by `/\x7b([^\x7d]+)\x7d/g` in
`separateParams` (base-tool.ts line 356), for well-formed endpoint templates
(every `\x7b` has a matching `\x7d`). -/
def extractPathParams (cs : List Char) : List String :=
  match cs with
  | [] => []
  | c :: t =>
      if c = lbrace then
        String.mk (t.takeWhile (· ≠ rbrace)) ::
          extractPathParams ((t.dropWhile (· ≠ rbrace)).drop 1)
      else extractPathParams t
termination_by cs.length
decreasing_by
  all_goals simp_wf
  all_goals
    first
      | omega
      | (have h1 := length_dropWhile_le (fun x => !decide (x = rbrace)) t
         have h2 := length_dropWhile_le (fun x => decide (x ≠ rbrace)) t
         simp only [List.length_drop] at h1 h2 ⊢
         omega)

/-- `BaseTool.separateParams` (base-tool.ts lines 348-367): parameters named
in the endpoint template move to `pathParams` (stringified), the rest stay. -/
def separateParams (endpoint : String) (params : List (String × Value)) :
    List (String × String) × List (String × Value) :=
  let names := extractPathParams endpoint.toList
  let pathParams := names.filterMap (fun n => (lookupEntry params n).map (fun v => (n, jsString v)))
  let otherParams := params.filter (fun p => !names.contains p.1)
  (pathParams, otherParams)

/-- JS `s.replace(pat, rep)` with a string pattern: first occurrence only. -/
def replaceFirst : List Char → List Char → List Char → List Char
  | [], _, _ => []
  | c :: t, pat, rep =>
      if pat.isPrefixOf (c :: t) then rep ++ (c :: t).drop pat.length
      else c :: replaceFirst t pat rep

/-- `encodeURIComponent`, modelled as the identity (URL escaping changes no
behaviour any claim depends on). -/
def encodeURIComponentM (s : String) : String := s

/-- `BaseTool.replacePathParams` (base-tool.ts lines 372-383). -/
def replacePathParams (endpoint : String) (pathParams : List (String × String)) :
    String :=
  pathParams.foldl
    (fun acc p =>
      String.mk (replaceFirst acc.toList (lbrace :: p.1.toList ++ [rbrace])
        (encodeURIComponentM p.2).toList))
    endpoint

/-- `BaseTool.getSummaryFields` (base-tool.ts lines 209-226). -/
def getSummaryFields (config : ToolConfig) : List String :=
  let n := config.name.toList
  if charsContain "clients".toList n then ["description", "mac", "ip", "vlan", "status"]
  else if charsContain "devices".toList n then ["name", "model", "serial", "status", "productType"]
  else if charsContain "events".toList n then ["type", "category", "occurredAt", "description"]
  else if charsContain "networks".toList n then ["name", "id", "productTypes", "timeZone"]
  else if charsContain "licenses".toList n then ["licenseType", "state", "expirationDate"]
  else ["name", "id", "type", "status"]

/-- The fallback literal of `applyResponseOptimization` when the settings
carry no `responseLimits` (base-tool.ts lines 167-171). -/
def fallbackLimits : ResponseLimits :=
  { maxArrayLength := 50, maxResponseSize := 30000, summarizeArrays := true
    truncateLongStrings := none, maxStringLength := none }

/-- `BaseTool.applyResponseOptimization` (base-tool.ts lines 165-204): for a
`_list` tool whose array response exceeds `maxArrayLength`, slice and wrap
with a `meta` block; otherwise, if the serialised response exceeds
`maxResponseSize` and summarisation is on, summarise; otherwise return the
response unchanged. -/
def applyResponseOptimization (config : ToolConfig) (settings : MerakiMCPSettings)
    (response : Value) : Value :=
  let limits := settings.responseLimits.getD fallbackLimits
  let responseSize := (Value.stringify response).length
  let listWrapped : Option Value :=
    if charsContain "_list".toList config.name.toList then
      match response with
      | .varr xs =>
          if xs.length > limits.maxArrayLength then
            some (.vobj [("data", .varr (xs.take limits.maxArrayLength)),
                         ("meta", .vobj
                           [("total", .vnum xs.length),
                            ("returned", .vnum limits.maxArrayLength),
                            ("truncated", .vbool true),
                            ("hint", .vstr ("Use perPage parameter to control response size. Max recommended: "
                              ++ toString limits.maxArrayLength).toList)])])
          else none
      | _ => none
    else none
  match listWrapped with
  | some r => r
  | none =>
      if responseSize > limits.maxResponseSize && limits.summarizeArrays then
        createSummaryResponse response (some (getSummaryFields config))
      else response

/-- The parameter pipeline of `BaseTool.execute` before validation
(base-tool.ts lines 59-69): settings defaults spread under the caller's
parameters, then type coercion, then the optional `transformParams`. -/
def preparedParams (config : ToolConfig) (settings : MerakiMCPSettings)
    (params : List (String × Value)) : List (String × Value) :=
  let defaults := getDefaultParams settings config.name
  let paramsWithDefaults := objAssign defaults params
  let coerced := coerceParameterTypes config.inputSchema.shape paramsWithDefaults
  match config.transformParams with
  | some f => f coerced
  | none => coerced

/-- Observable outcome of `BaseTool.execute`: the HTTP requests that reached
the dispatcher, and the returned value or the `McpError` produced by
`handleError`. -/
structure ExecOutcome where
  requests : List HttpRequest
  result : Except McpErr Value

/-- `BaseTool.execute` (base-tool.ts lines 57-135): prepare parameters,
validate, then either run the composite executor or build the endpoint and
dispatch one HTTP request via `upstream`; every thrown error funnels through
`handleError`. -/
def execute (config : ToolConfig) (settings : MerakiMCPSettings)
    (params : List (String × Value))
    (upstream : HttpRequest → Except Thrown Value) : ExecOutcome :=
  match validateParams config (preparedParams config settings params) with
  | .error t => ⟨[], .error (handleError t)⟩
  | .ok validatedParams =>
      match config.method, config.customExecutor with
      | .COMPOSITE, some ce =>
          let out := ce validatedParams
          match out.2 with
          | .error t => ⟨out.1, .error (handleError t)⟩
          | .ok v => ⟨out.1, .ok (applyResponseOptimization config settings v)⟩
      | m, _ =>
          match config.endpoint with
          | none =>
              ⟨[], .error (handleError (.plain ("Endpoint is required for method: " ++ m.render)))⟩
          | some epf =>
              let endpoint := epf validatedParams
              let sep := separateParams endpoint validatedParams
              let finalEndpoint := replacePathParams endpoint sep.1
              match m with
              | .COMPOSITE =>
                  ⟨[], .error (handleError (.plain ("Unsupported HTTP method: " ++ m.render)))⟩
              | meth =>
                  let req : HttpRequest := ⟨meth, finalEndpoint, sep.2⟩
                  match upstream req with
                  | .error t => ⟨[req], .error (handleError t)⟩
                  | .ok data =>
                      let result := match config.transformResponse with
                        | some f => f data
                        | none => data
                      ⟨[req], .ok (applyResponseOptimization config settings result)⟩

/-! ## organization_security_events composite executor
(organization tools catalog, `customExecutor` of `organization_security_events`) -/

/-- A child network of the organization (the fields the executor reads). -/
structure SecNetwork where
  id : String
  name : String
deriving DecidableEq, Repr

/-- One event from a child `/networks/:id/events` call: `occurredAt` as the
epoch-milliseconds value `new Date(e.occurredAt).getTime()` the comparator
uses, plus the remaining fields of the event object. -/
structure RawEvent where
  occurredAt : Int
  payload : Value

/-- An event tagged with its network (`{...event, networkId, networkName}`). -/
structure TaggedEvent where
  occurredAt : Int
  payload : Value
  networkId : String
  networkName : String

/-- The per-network tagging map of the executor. -/
def tagEvents (n : SecNetwork) (es : List RawEvent) : List TaggedEvent :=
  es.map (fun e => ⟨e.occurredAt, e.payload, n.id, n.name⟩)

/-- The `for (const network of networks) try {...} catch { continue }` loop:
a child whose events call throws contributes nothing, a successful child
contributes its tagged events, concatenated in network order.  `fetch`
models the `apiClient.get(/networks/:id/events)` sub-call (with
`data.events ?? []` folded in). -/
def gatherEvents (networks : List SecNetwork)
    (fetch : SecNetwork → Except Thrown (List RawEvent)) : List TaggedEvent :=
  networks.foldl
    (fun acc n =>
      match fetch n with
      | .error _ => acc
      | .ok es => acc ++ tagEvents n es) []

/-- Stable descending insertion: keeps earlier elements first on equal keys,
the order JS's stable `sort((a, b) => keyB - keyA)` produces. -/
def insertByDesc {α : Type} (key : α → Int) (e : α) : List α → List α
  | [] => [e]
  | x :: xs => if key x > key e then x :: insertByDesc key e xs else e :: x :: xs

/-- Stable sort by descending key, modelling
`allSecurityEvents.sort((a, b) => new Date(b.occurredAt).getTime() - new Date(a.occurredAt).getTime())`. -/
def sortByDesc {α : Type} (key : α → Int) : List α → List α
  | [] => []
  | x :: xs => insertByDesc key x (sortByDesc key xs)

/-- The `if (params.perPage) slice(0, perPage)` pagination step (JS truthiness:
a `0` is falsy and skips the slice; the schema in fact enforces `perPage ≥ 3`). -/
def jsPaginate {α : Type} (perPage : Option Nat) (l : List α) : List α :=
  match perPage with
  | some p => if p ≠ 0 then l.take p else l
  | none => l

/-- The object returned by the executor. -/
structure SecEventsResult where
  events : List TaggedEvent
  total : Nat
  organizationId : String

/-- The `organization_security_events` custom executor (organization tools
catalog): gather the tagged events of the children that succeed, sort by
`occurredAt` descending, paginate, and return `{events, total, organizationId}`
(`total` is the length after pagination, as in the source).  The initial
`/organizations/:id/networks` call is represented by the `networks` argument. -/
def organizationSecurityEvents (organizationId : String)
    (networks : List SecNetwork)
    (fetch : SecNetwork → Except Thrown (List RawEvent))
    (perPage : Option Nat) : SecEventsResult :=
  let allSecurityEvents := gatherEvents networks fetch
  let sorted := sortByDesc (fun e => e.occurredAt) allSecurityEvents
  let sliced := jsPaginate perPage sorted
  ⟨sliced, sliced.length, organizationId⟩

/-! ## Claim support definitions -/

/-- Last-occurrence key lookup over a flat run of parameter objects: the value
the spec's "later overwrites earlier, exact name last" resolution assigns. -/
def lookupLast (k : String) : List (String × Value) → Option Value
  | [] => none
  | p :: rest =>
      match lookupLast k rest with
      | some w => some w
      | none => if p.1 == k then some p.2 else none

/-- The spec's description of default-parameter resolution, written from its
words (the reference side of the refinement claim C8): collect the parameter
objects of every matching pattern in declaration order, append the exact-name
object last, and give each key its last value in that run. -/
def specDefaultResolution (table : List (String × List (String × Value)))
    (toolName k : String) : Option Value :=
  let objs := (table.filter (fun e => matchesPattern toolName e.1)).map (·.2)
  let exact := match lookupEntry table toolName with
    | some ps => [ps]
    | none => []
  lookupLast k (objs ++ exact).flatten

/-- Settings used to witness C7: the exclude list names `x_list` while every
other signal would approve it. -/
def settingsC7 : MerakiMCPSettings :=
  { autoApprove := some
      { enabled := true
        tools :=
          { all := some true, patterns := some ["*"]
            specific := some ["x_list"], exclude := some ["x_list"] }
        readOnlyByDefault := some true }
    responseLimits := none
    defaultParams := none }

/-- Settings used to witness C10: the feature is disabled while every list
would approve `network_clients_list`. -/
def settingsC10 : MerakiMCPSettings :=
  { autoApprove := some
      { enabled := false
        tools :=
          { all := some true, patterns := some ["*"]
            specific := some ["network_clients_list"], exclude := some [] }
        readOnlyByDefault := some true }
    responseLimits := none
    defaultParams := none }

/-- The default-parameter table of C8's concrete scenario: two patterns and
an exact name, all matching `net_list`, each binding `a`. -/
def tableC8 : List (String × List (String × Value)) :=
  [("net_*", [("a", .vnum 1)]), ("*_list", [("a", .vnum 2)]), ("net_list", [("a", .vnum 3)])]

/-! ## Supporting lemmas -/

theorem lookupEntry_append {α : Type} (l₁ l₂ : List (String × α)) (k : String) :
    lookupEntry (l₁ ++ l₂) k =
      match lookupEntry l₁ k with
      | some v => some v
      | none => lookupEntry l₂ k := by
  induction l₁ with
  | nil => simp [lookupEntry]
  | cons p rest ih =>
    by_cases hp : p.1 = k <;> simp [lookupEntry, hp, ih]

theorem lookupEntry_mapSet_ne (obj : List (String × Value)) (k k' : String) (v : Value)
    (hk : k' ≠ k) :
    lookupEntry (obj.map (fun p => if p.1 = k' then (k', v) else p)) k =
      lookupEntry obj k := by
  induction obj with
  | nil => simp
  | cons p rest ih =>
    simp only [List.map_cons]
    by_cases hp : p.1 = k'
    · have h1 : p.1 ≠ k := fun h => hk (hp ▸ h)
      simp [lookupEntry, hp, hk, h1, ih]
    · by_cases hpk : p.1 = k
      · have h3 : ¬ k = k' := fun h => hp (hpk.trans h)
        simp [lookupEntry, hp, hpk, h3, ih]
      · simp [lookupEntry, hp, hpk, ih]

theorem lookupEntry_mapSet_eq (obj : List (String × Value)) (k' : String) (v : Value)
    (hany : obj.any (fun p => p.1 == k')) :
    lookupEntry (obj.map (fun p => if p.1 = k' then (k', v) else p)) k' =
      some v := by
  induction obj with
  | nil => simp at hany
  | cons p rest ih =>
    simp only [List.map_cons]
    by_cases hp : p.1 = k'
    · simp [lookupEntry, hp]
    · simp only [List.any_cons, Bool.or_eq_true, beq_iff_eq] at hany
      have h2 := ih (List.any_eq_true.mpr (by
        rcases hany with h | h
        · exact absurd h hp
        · simpa using h))
      simp [lookupEntry, hp, h2]

theorem lookupEntry_none_of_not_any (obj : List (String × Value)) (k' : String)
    (hany : ¬ obj.any (fun p => p.1 == k')) :
    lookupEntry obj k' = none := by
  induction obj with
  | nil => simp [lookupEntry]
  | cons p rest ih =>
    simp only [List.any_cons, Bool.or_eq_true, not_or] at hany
    simp [lookupEntry, hany.1, ih hany.2]

theorem lookupEntry_setKey (obj : List (String × Value)) (k k' : String) (v : Value) :
    lookupEntry (setKey obj k' v) k =
      if k' = k then some v else lookupEntry obj k := by
  unfold setKey
  split
  case isTrue hany =>
    by_cases hk : k' = k
    · subst hk
      simp [lookupEntry_mapSet_eq obj k' v hany]
    · simp [lookupEntry_mapSet_ne obj k k' v hk, hk]
  case isFalse hany =>
    rw [lookupEntry_append]
    by_cases hk : k' = k
    · subst hk
      simp [lookupEntry_none_of_not_any obj k' (by simpa using hany), lookupEntry]
    · cases h : lookupEntry obj k <;> simp [h, lookupEntry, hk]

theorem lookupEntry_objAssign (t s : List (String × Value)) (k : String) :
    lookupEntry (objAssign t s) k =
      match lookupLast k s with
      | some v => some v
      | none => lookupEntry t k := by
  induction s generalizing t with
  | nil => simp [objAssign, lookupLast]
  | cons p rest ih =>
    have step : objAssign t (p :: rest) = objAssign (setKey t p.1 p.2) rest := by
      simp [objAssign]
    rw [step, ih, lookupEntry_setKey]
    cases h : lookupLast k rest with
    | some w => simp [lookupLast, h]
    | none =>
      by_cases hp : p.1 = k
      · simp [lookupLast, h, hp]
      · have : (p.1 == k) = false := by simpa using hp
        simp [lookupLast, h, hp, this]

theorem lookupLast_append (k : String) (l₁ l₂ : List (String × Value)) :
    lookupLast k (l₁ ++ l₂) =
      match lookupLast k l₂ with
      | some v => some v
      | none => lookupLast k l₁ := by
  induction l₁ with
  | nil => cases h : lookupLast k l₂ <;> simp [lookupLast, h]
  | cons p rest ih =>
    simp only [List.cons_append, lookupLast, List.append_eq]
    rw [ih]
    cases h : lookupLast k l₂ <;> cases h2 : lookupLast k rest <;> simp [h, h2]

theorem lookupEntry_patternsFold (table : List (String × List (String × Value)))
    (toolName k : String) :
    ∀ acc : List (String × Value),
      lookupEntry
        (table.foldl
          (fun acc e => if matchesPattern toolName e.1 then objAssign acc e.2 else acc)
          acc) k =
        match lookupLast k ((table.filter
            (fun e => matchesPattern toolName e.1)).map (·.2)).flatten with
        | some v => some v
        | none => lookupEntry acc k := by
  induction table with
  | nil => intro acc; simp [lookupLast]
  | cons e rest ih =>
    intro acc
    cases he : matchesPattern toolName e.1 with
    | true =>
      simp only [List.foldl_cons, List.filter_cons, he, if_true, List.map_cons,
        List.flatten_cons]
      rw [ih, lookupEntry_objAssign, lookupLast_append]
      cases h1 : lookupLast k ((rest.filter
          (fun e => matchesPattern toolName e.1)).map (·.2)).flatten <;>
        cases h2 : lookupLast k e.2 <;> simp [h1, h2]
    | false =>
      simp only [List.foldl_cons, List.filter_cons, he, Bool.false_eq_true, if_false]
      exact ih acc

/-! ## Claim theorems -/

/-- C7: for every operation name contained in the exclude list, the
auto-approval decision `shouldAutoApprove` is `false` — the operation
requires approval — regardless of the blanket-approve flag, the exact-name
list, the pattern list, and the read-only heuristic toggle. -/
theorem shouldAutoApprove_exclude_overrides
    (s : MerakiMCPSettings) (aa : AutoApproveSettings) (toolName : String)
    (hs : s.autoApprove = some aa)
    (hx : toolName ∈ aa.tools.exclude.getD []) :
    shouldAutoApprove s toolName = false := by
  have hc : (aa.tools.exclude.getD []).contains toolName = true := by
    simpa [List.contains] using hx
  simp only [shouldAutoApprove, hs]
  cases he : aa.enabled with
  | false => simp [he]
  | true =>
    simp [he, hc]
    intro hmem
    exact absurd hx hmem

theorem shouldAutoApprove_exclude_overrides_witness :
    shouldAutoApprove settingsC7 "x_list" = false :=
  shouldAutoApprove_exclude_overrides settingsC7
    { enabled := true
      tools :=
        { all := some true, patterns := some ["*"]
          specific := some ["x_list"], exclude := some ["x_list"] }
      readOnlyByDefault := some true }
    "x_list" rfl (by decide)

/-- C10: if the auto-approval master enable flag is off (or the whole
`autoApprove` block is absent), `shouldAutoApprove` returns `false` for every
operation name, whatever the lists, patterns and heuristics contain. -/
theorem shouldAutoApprove_disabled_blocks_all
    (s : MerakiMCPSettings) (toolName : String)
    (h : ∀ aa, s.autoApprove = some aa → aa.enabled = false) :
    shouldAutoApprove s toolName = false := by
  cases hs : s.autoApprove with
  | none => simp [shouldAutoApprove, hs]
  | some aa => simp [shouldAutoApprove, hs, h aa hs]

theorem shouldAutoApprove_disabled_blocks_all_witness :
    shouldAutoApprove settingsC10 "network_clients_list" = false :=
  shouldAutoApprove_disabled_blocks_all settingsC10 "network_clients_list"
    (by
      intro aa h
      obtain rfl : aa =
          { enabled := false
            tools :=
              { all := some true, patterns := some ["*"]
                specific := some ["network_clients_list"], exclude := some [] }
            readOnlyByDefault := some true } := by
        simpa [settingsC10] using h.symm
      rfl)

/-- C8: `getDefaultParams` resolves every key exactly as the spec describes —
the parameter objects of all matching patterns accumulate in declaration
order with later patterns overwriting earlier on key collision, and the
exact-name entry is applied last (`specDefaultResolution`); in particular, on
the concrete table with patterns `net_*` → `a:1`, `*_list` → `a:2` and exact
name `net_list` → `a:3`, the resolved `a` for `net_list` is `3`. -/
theorem getDefaultParams_matches_spec_resolution :
    (∀ (table : List (String × List (String × Value)))
        (autoAp : Option AutoApproveSettings) (respLim : Option ResponseLimits)
        (toolName k : String),
        lookupEntry (getDefaultParams ⟨autoAp, respLim, some table⟩ toolName) k =
          specDefaultResolution table toolName k) ∧
    lookupEntry (getDefaultParams ⟨none, none, some tableC8⟩ "net_list") "a" =
      some (.vnum 3) := by
  constructor
  · intro table autoAp respLim toolName k
    show lookupEntry
        (match lookupEntry table toolName with
          | some ps => objAssign (table.foldl
              (fun acc e => if matchesPattern toolName e.1 then objAssign acc e.2 else acc)
              []) ps
          | none => table.foldl
              (fun acc e => if matchesPattern toolName e.1 then objAssign acc e.2 else acc)
              []) k = _
    unfold specDefaultResolution
    cases hexact : lookupEntry table toolName with
    | some ps =>
        dsimp only
        rw [lookupEntry_objAssign, lookupEntry_patternsFold]
        simp only [List.flatten_append, List.flatten_cons, List.flatten_nil,
          List.append_nil]
        rw [lookupLast_append]
        cases h1 : lookupLast k ps <;>
          cases h2 : lookupLast k ((table.filter
            (fun e => matchesPattern toolName e.1)).map (·.2)).flatten <;>
          simp [h1, h2, lookupEntry]
    | none =>
        dsimp only
        rw [lookupEntry_patternsFold]
        simp only [List.flatten_append, List.flatten_nil, List.append_nil]
        cases h2 : lookupLast k ((table.filter
            (fun e => matchesPattern toolName e.1)).map (·.2)).flatten <;>
          simp [h2, lookupEntry]
  · rfl

/-- Upstream that answers every attempt with 429 and a retry-after hint of
2 seconds (C5's scenario). -/
def script429 : Nat → UpstreamResponse :=
  fun _ => ⟨429, some 2, .vobj [("errors", .varr [.vstr "rate limited".toList])]⟩

/-- Upstream that answers every attempt with a bare 500 (C6's scenario). -/
def script500 : Nat → UpstreamResponse := fun _ => ⟨500, none, .vnull⟩

/-- C5 (amended): on persistent 429 responses the dispatcher waits
`getRetryAfter` — the retry-after hint in seconds times 1000 ms when the hint
is present, the fixed `INITIAL_BACKOFF_MS` otherwise — before each retry,
issues 4 requests in total (the initial attempt plus `MAX_RETRIES = 3`
retries, not 3 requests in total), and then surfaces a `MerakiAPIError`
carrying status 429 and the body of the last response. -/
theorem executeRequest_429_retry_schedule
    (script : Nat → UpstreamResponse)
    (h : ∀ i, i ≤ 3 → (script i).status = 429) :
    (executeRequest script 0).attempts = 4 ∧
    (executeRequest script 0).waits =
      [getRetryAfter (script 0), getRetryAfter (script 1), getRetryAfter (script 2)] ∧
    (executeRequest script 0).result =
      .error ⟨getErrorMessage (script 3), 429, (script 3).data⟩ ∧
    (∀ r s, r.retryAfterSeconds = some s → getRetryAfter r = s * 1000) ∧
    (∀ r, r.retryAfterSeconds = none → getRetryAfter r = INITIAL_BACKOFF_MS) := by
  have h0 := h 0 (by omega)
  have h1 := h 1 (by omega)
  have h2 := h 2 (by omega)
  have h3 := h 3 (by omega)
  have e3 : executeRequest script 3 =
      ⟨[], 1, .error ⟨getErrorMessage (script 3), 429, (script 3).data⟩⟩ := by
    rw [executeRequest]
    simp [requestOnce, h3, MAX_RETRIES]
  have e2 : executeRequest script 2 =
      ⟨[getRetryAfter (script 2)], 2,
        .error ⟨getErrorMessage (script 3), 429, (script 3).data⟩⟩ := by
    rw [executeRequest]
    simp [requestOnce, h2, MAX_RETRIES, e3]
  have e1 : executeRequest script 1 =
      ⟨[getRetryAfter (script 1), getRetryAfter (script 2)], 3,
        .error ⟨getErrorMessage (script 3), 429, (script 3).data⟩⟩ := by
    rw [executeRequest]
    simp [requestOnce, h1, MAX_RETRIES, e2]
  have e0 : executeRequest script 0 =
      ⟨[getRetryAfter (script 0), getRetryAfter (script 1), getRetryAfter (script 2)], 4,
        .error ⟨getErrorMessage (script 3), 429, (script 3).data⟩⟩ := by
    rw [executeRequest]
    simp [requestOnce, h0, MAX_RETRIES, e1]
  refine ⟨by rw [e0], by rw [e0], by rw [e0], ?_, ?_⟩
  · intro r s hr
    simp [getRetryAfter, hr]
  · intro r hr
    simp [getRetryAfter, hr]

theorem executeRequest_429_retry_schedule_witness :
    (executeRequest script429 0).attempts = 4 ∧
    (executeRequest script429 0).waits =
      [getRetryAfter (script429 0), getRetryAfter (script429 1), getRetryAfter (script429 2)] ∧
    (executeRequest script429 0).result =
      .error ⟨getErrorMessage (script429 3), 429, (script429 3).data⟩ ∧
    (∀ r s, r.retryAfterSeconds = some s → getRetryAfter r = s * 1000) ∧
    (∀ r, r.retryAfterSeconds = none → getRetryAfter r = INITIAL_BACKOFF_MS) :=
  executeRequest_429_retry_schedule script429 (fun _ _ => rfl)

/-- C5 counterexample: with every attempt answered 429 and a retry-after hint
of 2 seconds, the dispatcher does wait 2000 ms ≥ 2 s before every retry, but
it issues 4 requests before giving up, not 3 total attempts as claimed. -/
theorem executeRequest_429_not_three_attempts :
    (executeRequest script429 0).waits = [2000, 2000, 2000] ∧
    (executeRequest script429 0).attempts = 4 ∧
    ¬ (executeRequest script429 0).attempts = 3 := by
  have e3 : executeRequest script429 3 =
      ⟨[], 1, .error ⟨getErrorMessage (script429 3), 429, (script429 3).data⟩⟩ := by
    rw [executeRequest]
    simp [requestOnce, script429, MAX_RETRIES]
  have e2 : executeRequest script429 2 =
      ⟨[2000], 2, .error ⟨getErrorMessage (script429 3), 429, (script429 3).data⟩⟩ := by
    rw [executeRequest]
    simp [requestOnce, script429, MAX_RETRIES, e3, getRetryAfter]
  have e1 : executeRequest script429 1 =
      ⟨[2000, 2000], 3, .error ⟨getErrorMessage (script429 3), 429, (script429 3).data⟩⟩ := by
    rw [executeRequest]
    simp [requestOnce, script429, MAX_RETRIES, e2, getRetryAfter]
  have e0 : executeRequest script429 0 =
      ⟨[2000, 2000, 2000], 4, .error ⟨getErrorMessage (script429 3), 429, (script429 3).data⟩⟩ := by
    rw [executeRequest]
    simp [requestOnce, script429, MAX_RETRIES, e1, getRetryAfter]
  rw [e0]
  exact ⟨rfl, rfl, by simp⟩

/-- C6 (amended): every response whose status is ≥ 400 and not 429 — the
other 4xx and also every 5xx — is terminal: the dispatcher issues exactly one
request, waits for no backoff, and immediately surfaces a `MerakiAPIError`
carrying that status and payload (the response interceptor throws before the
retry check, so only 429 enters the retry path). -/
theorem executeRequest_non429_terminal
    (script : Nat → UpstreamResponse)
    (h4 : (script 0).status ≥ 400) (hne : (script 0).status ≠ 429) :
    executeRequest script 0 =
      ⟨[], 1, .error ⟨getErrorMessage (script 0), (script 0).status, (script 0).data⟩⟩ := by
  rw [executeRequest]
  simp [requestOnce, h4, hne]

theorem executeRequest_non429_terminal_witness :
    executeRequest script500 0 =
      ⟨[], 1, .error ⟨getErrorMessage (script500 0), (script500 0).status,
        (script500 0).data⟩⟩ :=
  executeRequest_non429_terminal script500 (by decide) (by decide)

/-- C6 counterexample: a persistent 500 is not retried — one request, no
backoff wait — while the 429 path retries with backoffs for four requests;
the two paths differ, refuting "5xx follows the same retry/backoff path as
429". -/
theorem executeRequest_500_not_retried :
    (executeRequest script500 0).attempts = 1 ∧
    (executeRequest script500 0).waits = [] ∧
    (executeRequest script500 0).result =
      .error ⟨"Internal Server Error", 500, .vnull⟩ ∧
    (executeRequest script429 0).attempts = 4 ∧
    (executeRequest script429 0).waits = [2000, 2000, 2000] := by
  have e5 : executeRequest script500 0 =
      ⟨[], 1, .error ⟨getErrorMessage (script500 0), 500, .vnull⟩⟩ := by
    rw [executeRequest]
    simp [requestOnce, script500]
  have e3 : executeRequest script429 3 =
      ⟨[], 1, .error ⟨getErrorMessage (script429 3), 429, (script429 3).data⟩⟩ := by
    rw [executeRequest]
    simp [requestOnce, script429, MAX_RETRIES]
  have e2 : executeRequest script429 2 =
      ⟨[2000], 2, .error ⟨getErrorMessage (script429 3), 429, (script429 3).data⟩⟩ := by
    rw [executeRequest]
    simp [requestOnce, script429, MAX_RETRIES, e3, getRetryAfter]
  have e1 : executeRequest script429 1 =
      ⟨[2000, 2000], 3, .error ⟨getErrorMessage (script429 3), 429, (script429 3).data⟩⟩ := by
    rw [executeRequest]
    simp [requestOnce, script429, MAX_RETRIES, e2, getRetryAfter]
  have e0 : executeRequest script429 0 =
      ⟨[2000, 2000, 2000], 4, .error ⟨getErrorMessage (script429 3), 429, (script429 3).data⟩⟩ := by
    rw [executeRequest]
    simp [requestOnce, script429, MAX_RETRIES, e1, getRetryAfter]
  rw [e5, e0]
  refine ⟨rfl, rfl, ?_, rfl, rfl⟩
  have : getErrorMessage (script500 0) = "Internal Server Error" := by rfl
  rw [this]

/-- The 5-network scenario of C4: networks `n2` and `n4` throw, the other
three return 1, 2 and 3 events with pairwise distinct timestamps. -/
def exNetworks : List SecNetwork :=
  [⟨"n1", "N1"⟩, ⟨"n2", "N2"⟩, ⟨"n3", "N3"⟩, ⟨"n4", "N4"⟩, ⟨"n5", "N5"⟩]

def exFetch : SecNetwork → Except Thrown (List RawEvent) := fun n =>
  if n.id = "n1" then .ok [⟨10, .vnull⟩]
  else if n.id = "n2" then .error (.plain "no appliance")
  else if n.id = "n3" then .ok [⟨40, .vnull⟩, ⟨20, .vnull⟩]
  else if n.id = "n4" then .error (.plain "events endpoint missing")
  else .ok [⟨50, .vnull⟩, ⟨30, .vnull⟩, ⟨60, .vnull⟩]

theorem insertByDesc_perm {α : Type} (key : α → Int) (e : α) (l : List α) :
    (insertByDesc key e l).Perm (e :: l) := by
  induction l with
  | nil => simp [insertByDesc]
  | cons x xs ih =>
    simp only [insertByDesc]
    split
    · exact ((ih.cons x).trans (List.Perm.swap e x xs))
    · exact List.Perm.refl _

theorem sortByDesc_perm {α : Type} (key : α → Int) (l : List α) :
    (sortByDesc key l).Perm l := by
  induction l with
  | nil => simp [sortByDesc]
  | cons x xs ih =>
    exact (insertByDesc_perm key x (sortByDesc key xs)).trans (ih.cons x)

theorem insertByDesc_pairwise {α : Type} (key : α → Int) (e : α) (l : List α)
    (h : l.Pairwise (fun a b => key b ≤ key a)) :
    (insertByDesc key e l).Pairwise (fun a b => key b ≤ key a) := by
  induction l with
  | nil => simp [insertByDesc]
  | cons x xs ih =>
    rcases List.pairwise_cons.mp h with ⟨hx, hxs⟩
    simp only [insertByDesc]
    split
    case isTrue hgt =>
      refine List.pairwise_cons.mpr ⟨?_, ih hxs⟩
      intro b hb
      have hb2 := (insertByDesc_perm key e xs).mem_iff.mp hb
      rcases List.mem_cons.mp hb2 with rfl | hbxs
      · omega
      · exact hx b hbxs
    case isFalse hle =>
      refine List.pairwise_cons.mpr ⟨?_, h⟩
      intro b hb
      rcases List.mem_cons.mp hb with rfl | hbxs
      · omega
      · have := hx b hbxs
        omega

theorem sortByDesc_pairwise {α : Type} (key : α → Int) (l : List α) :
    (sortByDesc key l).Pairwise (fun a b => key b ≤ key a) := by
  induction l with
  | nil => simp [sortByDesc]
  | cons x xs ih => exact insertByDesc_pairwise key x _ ih

theorem jsPaginate_sublist {α : Type} (pp : Option Nat) (l : List α) :
    (jsPaginate pp l).Sublist l := by
  cases pp with
  | none => simp [jsPaginate]
  | some p =>
    simp only [jsPaginate]
    split
    · exact List.take_sublist p l
    · exact List.Sublist.refl l

theorem mem_gatherEvents_aux (fetch : SecNetwork → Except Thrown (List RawEvent))
    (e : TaggedEvent) :
    ∀ (networks : List SecNetwork) (acc : List TaggedEvent),
      e ∈ networks.foldl
        (fun acc n =>
          match fetch n with
          | .error _ => acc
          | .ok es => acc ++ tagEvents n es) acc →
      e ∈ acc ∨ ∃ n ∈ networks, ∃ es, fetch n = .ok es ∧ e ∈ tagEvents n es := by
  intro networks
  induction networks with
  | nil => intro acc h; exact Or.inl h
  | cons n ns ih =>
    intro acc h
    simp only [List.foldl_cons] at h
    cases hf : fetch n with
    | error err =>
      rw [hf] at h
      rcases ih acc h with hacc | ⟨m, hm, es, hes, hmem⟩
      · exact Or.inl hacc
      · exact Or.inr ⟨m, List.mem_cons_of_mem n hm, es, hes, hmem⟩
    | ok es =>
      rw [hf] at h
      rcases ih (acc ++ tagEvents n es) h with hacc | ⟨m, hm, es', hes', hmem⟩
      · rcases List.mem_append.mp hacc with h1 | h2
        · exact Or.inl h1
        · exact Or.inr ⟨n, List.mem_cons_self n ns, es, hf, h2⟩
      · exact Or.inr ⟨m, List.mem_cons_of_mem n hm, es', hes', hmem⟩

theorem mem_gatherEvents (networks : List SecNetwork)
    (fetch : SecNetwork → Except Thrown (List RawEvent)) (e : TaggedEvent)
    (he : e ∈ gatherEvents networks fetch) :
    ∃ n ∈ networks, ∃ es, fetch n = .ok es ∧
      e.networkId = n.id ∧ e.networkName = n.name ∧
      (⟨e.occurredAt, e.payload⟩ : RawEvent) ∈ es := by
  rcases mem_gatherEvents_aux fetch e networks [] he with h | ⟨n, hn, es, hes, hmem⟩
  · simp at h
  · refine ⟨n, hn, es, hes, ?_⟩
    simp only [tagEvents, List.mem_map] at hmem
    rcases hmem with ⟨raw, hraw, rfl⟩
    exact ⟨rfl, rfl, hraw⟩

theorem gatherEvents_skips_failures_aux
    (fetch : SecNetwork → Except Thrown (List RawEvent)) :
    ∀ (networks : List SecNetwork) (acc : List TaggedEvent),
      networks.foldl
        (fun acc n =>
          match fetch n with
          | .error _ => acc
          | .ok es => acc ++ tagEvents n es) acc =
      (networks.filter (fun n =>
          match fetch n with
          | .ok _ => true
          | .error _ => false)).foldl
        (fun acc n =>
          match fetch n with
          | .error _ => acc
          | .ok es => acc ++ tagEvents n es) acc := by
  intro networks
  induction networks with
  | nil => intro acc; rfl
  | cons n ns ih =>
    intro acc
    cases hf : fetch n with
    | error err => simp [List.filter_cons, hf, ih]
    | ok es => simp [List.filter_cons, hf, ih]

/-- C4: the composite `organization_security_events` executor skips a child
whose events sub-call throws and never propagates the failure (the aggregate
over all children equals the aggregate over the succeeding children alone);
every surviving event is tagged with its child network's id and name and
originates from that child's response; the events list is sorted by
`occurredAt` descending and equals the timestamp-sorted concatenation
truncated to the requested page size.  In the concrete 5-child scenario with
2 throwing children and successful children returning 1, 2 and 3 events with
distinct timestamps, the call returns all 6 surviving items sorted by
timestamp descending. -/
theorem organizationSecurityEvents_spec :
    (∀ (orgId : String) (networks : List SecNetwork)
        (fetch : SecNetwork → Except Thrown (List RawEvent)) (perPage : Option Nat),
        gatherEvents networks fetch =
          gatherEvents (networks.filter (fun n =>
            match fetch n with
            | .ok _ => true
            | .error _ => false)) fetch ∧
        (organizationSecurityEvents orgId networks fetch perPage).events.Pairwise
          (fun a b => b.occurredAt ≤ a.occurredAt) ∧
        (∀ e ∈ (organizationSecurityEvents orgId networks fetch perPage).events,
          ∃ n ∈ networks, ∃ es, fetch n = .ok es ∧
            e.networkId = n.id ∧ e.networkName = n.name ∧
            (⟨e.occurredAt, e.payload⟩ : RawEvent) ∈ es) ∧
        (organizationSecurityEvents orgId networks fetch perPage).events =
          jsPaginate perPage
            (sortByDesc (fun e => e.occurredAt) (gatherEvents networks fetch))) ∧
    ((organizationSecurityEvents "org" exNetworks exFetch none).events.map
        (fun e => (e.occurredAt, e.networkId)) =
      [(60, "n5"), (50, "n5"), (40, "n3"), (30, "n5"), (20, "n3"), (10, "n1")] ∧
      (organizationSecurityEvents "org" exNetworks exFetch none).events.length = 6) := by
  constructor
  · intro orgId networks fetch perPage
    refine ⟨gatherEvents_skips_failures_aux fetch networks [], ?_, ?_, rfl⟩
    · exact List.Pairwise.sublist (jsPaginate_sublist _ _) (sortByDesc_pairwise _ _)
    · intro e he
      have h1 : e ∈ sortByDesc (fun e => e.occurredAt) (gatherEvents networks fetch) :=
        (jsPaginate_sublist _ _).subset he
      have h2 : e ∈ gatherEvents networks fetch :=
        (sortByDesc_perm _ _).mem_iff.mp h1
      exact mem_gatherEvents networks fetch e h2
  · exact ⟨rfl, rfl⟩

theorem optimizeList_length (opts : OptimizationOptions) (l : List Value) :
    (optimizeList opts l).length = l.length := by
  induction l with
  | nil => simp [optimizeList]
  | cons x xs ih => simp [optimizeList, ih]

theorem optimizeList_id (opts : OptimizationOptions) (l : List Value)
    (h : ∀ x ∈ l, optimizeResponse opts x = x) :
    optimizeList opts l = l := by
  induction l with
  | nil => simp [optimizeList]
  | cons x xs ih =>
    rw [optimizeList, h x (List.mem_cons_self x xs),
      ih (fun y hy => h y (List.mem_cons_of_mem x hy))]

/-- The option set of C2's counterexample: structural-bounding maximum 1. -/
def optsC2 : OptimizationOptions :=
  { maxArrayLength := some 1, truncateLongStrings := true, maxStringLength := some 500
    removeNullFields := true, compactFormat := true }

/-- C2 counterexample: with maximum M = 1, the singleton array holding a
2-element array has length ≤ M, yet `optimizeResponse` does not return it
unchanged — the nested array is bounded and wrapped, so "for every array of
length at most M the output equals the input" is false. -/
theorem optimizeResponse_small_array_not_identity :
    [Value.varr [.vnum 1, .vnum 2]].length ≤ 1 ∧
    optimizeResponse optsC2 (.varr [.varr [.vnum 1, .vnum 2]]) ≠
      .varr [.varr [.vnum 1, .vnum 2]] := by
  constructor
  · decide
  · simp [optimizeResponse, optimizeList, optimizeFields, jsSlice, gtOpt, optsC2]

/-- C2 (amended): with the structural-bounding maximum present as `M`, an
array longer than `M` becomes `{data, _meta}` where `data` holds the first
`M` items each recursively optimized and `_meta = {totalCount = original
length, returnedCount = M, truncated = true}`; an array of length ≤ M stays
an array of its item-wise recursively optimized members with no metadata at
that level — and it equals the input exactly when every item is a fixpoint of
the optimization. -/
theorem optimizeResponse_array_characterization
    (opts : OptimizationOptions) (M : Nat) (xs : List Value)
    (hM : opts.maxArrayLength = some M) :
    (xs.length > M →
      optimizeResponse opts (.varr xs) =
        .vobj [("data", .varr (optimizeList opts (xs.take M))),
               ("_meta", .vobj [("totalCount", .vnum xs.length),
                                ("returnedCount", .vnum M),
                                ("truncated", .vbool true)])]) ∧
    (xs.length ≤ M →
      optimizeResponse opts (.varr xs) = .varr (optimizeList opts xs)) ∧
    (xs.length ≤ M → (∀ x ∈ xs, optimizeResponse opts x = x) →
      optimizeResponse opts (.varr xs) = .varr xs) := by
  refine ⟨?_, ?_, ?_⟩
  · intro h
    rw [optimizeResponse]
    simp only [hM, jsSlice, gtOpt, optimizeList_length, List.length_take]
    rw [if_pos (by simpa using h), Nat.min_eq_left (le_of_lt h)]
  · intro h
    rw [optimizeResponse]
    simp only [hM, jsSlice, gtOpt, List.take_of_length_le h]
    rw [if_neg (by simpa using h)]
  · intro h hall
    rw [optimizeResponse]
    simp only [hM, jsSlice, gtOpt, List.take_of_length_le h, optimizeList_id opts xs hall]
    rw [if_neg (by simpa using h)]

theorem optimizeResponse_array_characterization_witness :
    optimizeResponse ⟨some 2, true, some 500, true, true⟩
        (.varr [.vnum 1, .vnum 2, .vnum 3]) =
      .vobj [("data", .varr (optimizeList ⟨some 2, true, some 500, true, true⟩
                ([Value.vnum 1, .vnum 2, .vnum 3].take 2))),
             ("_meta", .vobj [("totalCount", .vnum 3),
                              ("returnedCount", .vnum 2),
                              ("truncated", .vbool true)])] ∧
    optimizeResponse ⟨some 2, true, some 500, true, true⟩ (.varr [.vnum 1, .vnum 2]) =
      .varr [.vnum 1, .vnum 2] :=
  ⟨(optimizeResponse_array_characterization ⟨some 2, true, some 500, true, true⟩ 2
      [.vnum 1, .vnum 2, .vnum 3] rfl).1 (by decide),
   (optimizeResponse_array_characterization ⟨some 2, true, some 500, true, true⟩ 2
      [.vnum 1, .vnum 2] rfl).2.2 (by decide)
      (by
        intro x hx
        simp only [List.mem_cons, List.mem_singleton] at hx
        rcases hx with rfl | rfl | hx
        · simp [optimizeResponse]
        · simp [optimizeResponse]
        · simp at hx)⟩

/-- A tool schema whose Zod validation rejects every input (C1's witness). -/
def schemaFail : ToolSchema :=
  { shape := []
    parse := fun _ => .error [(["organizationId"], "Required")] }

def cfgC1 : ToolConfig :=
  { name := "organization_networks_list", method := .GET
    endpoint := some (fun _ => "/organizations")
    inputSchema := schemaFail, requiredParams := []
    transformParams := none, transformResponse := none, customExecutor := none }

def settingsEmpty : MerakiMCPSettings :=
  { autoApprove := none, responseLimits := none, defaultParams := none }

def upstreamOk : HttpRequest → Except Thrown Value := fun _ => .ok .vnull

/-- C1: whenever validation of the prepared parameters (defaults injected,
types coerced, pre-validation transform applied) fails, `BaseTool.execute`
issues no HTTP request through the dispatcher and fails with the converted
error of the thrown validation failure — which is either the plain
`Validation error: ...` thrown on a Zod failure or the `ValidationError`
thrown by `validateRequired`. -/
theorem execute_validation_failure_no_dispatch
    (config : ToolConfig) (settings : MerakiMCPSettings)
    (params : List (String × Value))
    (upstream : HttpRequest → Except Thrown Value) (t : Thrown)
    (h : validateParams config (preparedParams config settings params) = .error t) :
    (execute config settings params upstream).requests = [] ∧
    (execute config settings params upstream).result = .error (handleError t) ∧
    ((∃ issues,
        config.inputSchema.parse (preparedParams config settings params) = .error issues ∧
        t = .plain (mkZodMessage issues)) ∨
      (∃ f, t = .validation f "This field is required" .vnull)) := by
  refine ⟨by simp [execute, h], by simp [execute, h], ?_⟩
  unfold validateParams at h
  cases hp : config.inputSchema.parse (preparedParams config settings params) with
  | error issues =>
    rw [hp] at h
    simp only [Except.error.injEq] at h
    exact Or.inl ⟨issues, rfl, h.symm⟩
  | ok data =>
    rw [hp] at h
    dsimp only at h
    cases hv : validateRequired data config.requiredParams with
    | none => rw [hv] at h; simp at h
    | some t' =>
      rw [hv] at h
      simp only [Except.error.injEq] at h
      unfold validateRequired at hv
      rcases Option.map_eq_some'.mp hv with ⟨f, _, hft⟩
      exact Or.inr ⟨f, by rw [← h, ← hft]⟩

theorem execute_validation_failure_no_dispatch_witness :
    (execute cfgC1 settingsEmpty [] upstreamOk).requests = [] ∧
    (execute cfgC1 settingsEmpty [] upstreamOk).result =
      .error (handleError (.plain (mkZodMessage [(["organizationId"], "Required")]))) ∧
    ((∃ issues,
        cfgC1.inputSchema.parse (preparedParams cfgC1 settingsEmpty []) = .error issues ∧
        Thrown.plain (mkZodMessage [(["organizationId"], "Required")]) =
          .plain (mkZodMessage issues)) ∨
      (∃ f, Thrown.plain (mkZodMessage [(["organizationId"], "Required")]) =
        .validation f "This field is required" .vnull)) :=
  execute_validation_failure_no_dispatch cfgC1 settingsEmpty [] upstreamOk
    (.plain (mkZodMessage [(["organizationId"], "Required")])) rfl

theorem isNullish_optimizeResponse (opts : OptimizationOptions) (v : Value) :
    (optimizeResponse opts v).isNullish = v.isNullish := by
  cases v with
  | vnull => simp [optimizeResponse]
  | vbool b => simp [optimizeResponse]
  | vnum n => simp [optimizeResponse]
  | vstr s =>
    rw [optimizeResponse]
    split
    · split <;> rfl
    · rfl
  | varr xs =>
    rw [optimizeResponse]
    split <;> rfl
  | vobj fs =>
    rw [optimizeResponse]
    rfl

theorem truncMarker_length : truncMarker.length = 15 := rfl

theorem optimize_idem_aux (opts : OptimizationOptions) :
    ∀ N : Nat,
      (∀ v : Value, sizeOf v ≤ N →
        optimizeResponse opts (optimizeResponse opts v) = optimizeResponse opts v) ∧
      (∀ l : List Value, sizeOf l ≤ N →
        optimizeList opts (optimizeList opts l) = optimizeList opts l) ∧
      (∀ fs : List (String × Value), sizeOf fs ≤ N →
        optimizeFields opts (optimizeFields opts fs) = optimizeFields opts fs) := by
  intro N
  induction N with
  | zero =>
    refine ⟨?_, ?_, ?_⟩
    · intro v hv; exfalso; cases v <;> simp at hv
    · intro l hl; exfalso; cases l <;> simp at hl
    · intro fs hfs; exfalso; cases fs <;> simp at hfs
  | succ N ihN =>
    obtain ⟨ihV, ihL, ihF⟩ := ihN
    refine ⟨?_, ?_, ?_⟩
    · intro v hv
      cases v with
      | vnull => simp [optimizeResponse]
      | vbool b => simp [optimizeResponse]
      | vnum n => simp [optimizeResponse]
      | vstr s =>
        cases hm : opts.maxStringLength with
        | none => simp [optimizeResponse, hm]
        | some m =>
          cases ht : opts.truncateLongStrings with
          | false => simp [optimizeResponse, hm, ht]
          | true =>
            by_cases hlen : s.length > m
            · have hfirst : optimizeResponse opts (.vstr s) =
                  .vstr (s.take m ++ truncMarker) := by
                simp [optimizeResponse, hm, ht, hlen]
              rw [hfirst]
              have hl1 : (s.take m).length = m := by
                simp [List.length_take]
                omega
              have hlen2 : (s.take m ++ truncMarker).length > m := by
                simp [List.length_append, hl1, truncMarker_length]
              have hsecond : optimizeResponse opts (.vstr (s.take m ++ truncMarker)) =
                  .vstr ((s.take m ++ truncMarker).take m ++ truncMarker) := by
                rw [optimizeResponse]
                simp only [hm]
                rw [if_pos (by
                  simp [ht, List.length_append, List.length_take, truncMarker_length]
                  omega)]
              rw [hsecond, List.take_append_eq_append_take, hl1, Nat.sub_self,
                List.take_zero, List.append_nil, List.take_take, Nat.min_self]
            · simp [optimizeResponse, hm, ht, hlen]
      | varr xs =>
        have hxs : sizeOf xs ≤ N := by simp at hv; omega
        cases hM : opts.maxArrayLength with
        | none =>
          have h1 : optimizeResponse opts (.varr xs) = .varr (optimizeList opts xs) := by
            rw [optimizeResponse]
            simp [hM, jsSlice, gtOpt]
          rw [h1, optimizeResponse]
          simp [hM, jsSlice, gtOpt]
          exact ihL xs hxs
        | some M =>
          by_cases hlen : xs.length > M
          · have hys_len : (optimizeList opts (xs.take M)).length = M := by
              rw [optimizeList_length, List.length_take]
              omega
            have h1 : optimizeResponse opts (.varr xs) =
                .vobj [("data", .varr (optimizeList opts (xs.take M))),
                       ("_meta", .vobj [("totalCount", .vnum xs.length),
                                        ("returnedCount", .vnum M),
                                        ("truncated", .vbool true)])] := by
              rw [optimizeResponse]
              simp [hM, jsSlice, gtOpt, hlen, hys_len]
            rw [h1, optimizeResponse]
            have h2 : optimizeResponse opts
                (.varr (optimizeList opts (xs.take M))) =
                .varr (optimizeList opts (optimizeList opts (xs.take M))) := by
              rw [optimizeResponse]
              simp [hM, jsSlice, gtOpt, hys_len,
                List.take_of_length_le (le_of_eq hys_len)]
            have h3 : optimizeList opts (optimizeList opts (xs.take M)) =
                optimizeList opts (xs.take M) :=
              ihL (xs.take M) (le_trans (sizeOf_take_le M xs) hxs)
            have h4 : optimizeResponse opts
                (.vobj [("totalCount", .vnum xs.length),
                        ("returnedCount", .vnum M),
                        ("truncated", .vbool true)]) =
                .vobj [("totalCount", .vnum xs.length),
                       ("returnedCount", .vnum M),
                       ("truncated", .vbool true)] := by
              simp [optimizeResponse, optimizeFields, isNullish]
            simp [optimizeFields, isNullish, h2, h3, h4]
          · have h1 : optimizeResponse opts (.varr xs) =
                .varr (optimizeList opts xs) := by
              rw [optimizeResponse]
              simp [hM, jsSlice, gtOpt, hlen,
                List.take_of_length_le (by omega : xs.length ≤ M)]
            rw [h1, optimizeResponse]
            have hlen1 : (optimizeList opts xs).length = xs.length :=
              optimizeList_length opts xs
            simp [hM, jsSlice, gtOpt, hlen1, hlen,
              List.take_of_length_le (by omega : (optimizeList opts xs).length ≤ M)]
            exact ihL xs hxs
      | vobj fs =>
        have hfs : sizeOf fs ≤ N := by simp at hv; omega
        rw [optimizeResponse, optimizeResponse]
        rw [ihF fs hfs]
    · intro l hl
      cases l with
      | nil => simp [optimizeList]
      | cons x xs =>
        have hx : sizeOf x ≤ N := by simp at hl; omega
        have hxs : sizeOf xs ≤ N := by simp at hl; omega
        simp only [optimizeList]
        rw [ihV x hx, ihL xs hxs]
    · intro fs hfs
      cases fs with
      | nil => simp [optimizeFields]
      | cons p rest =>
        obtain ⟨k, v⟩ := p
        have hv : sizeOf v ≤ N := by simp at hfs; omega
        have hrest : sizeOf rest ≤ N := by simp at hfs; omega
        cases hc : opts.removeNullFields && v.isNullish with
        | true =>
          simp only [optimizeFields, hc, if_true]
          exact ihF rest hrest
        | false =>
          simp only [optimizeFields, hc, Bool.false_eq_true, if_false]
          have hc2 : (opts.removeNullFields && (optimizeResponse opts v).isNullish) = false := by
            rw [isNullish_optimizeResponse]
            exact hc
          simp only [optimizeFields, hc2, Bool.false_eq_true, if_false]
          rw [ihV v hv, ihF rest hrest]

/-- C3: bounding is idempotent — `optimizeResponse` applied twice equals one
application, for every input and every option set — and a payload already
carrying a `meta`/`_meta`/`_summary` annotation is returned by
`formatToolResponse` unchanged (stringified as-is), so bounding is never
applied twice. -/
theorem optimizeResponse_idempotent :
    (∀ (opts : OptimizationOptions) (v : Value),
      optimizeResponse opts (optimizeResponse opts v) = optimizeResponse opts v) ∧
    (∀ (data : Value) (toolName : String),
      data.isObjectTruthy →
      ((data.getKey "meta").any truthy || (data.getKey "_meta").any truthy ||
        (data.getKey "_summary").any truthy) →
      formatToolResponse data toolName = data.stringify) := by
  constructor
  · intro opts v
    exact (optimize_idem_aux opts (sizeOf v)).1 v (le_refl _)
  · intro data toolName h1 h2
    simp [formatToolResponse, h1, h2]
